import Mathlib

/-
Verification of the motion-smoothing and framing core of camtrack
(src/camtrack.cpp).  The scalar type `prec` (float) is idealized as the
real numbers; machine floating point is not modelled.  The structures
and update functions below are direct shallow embeddings of the C++
classes SmoothMoverLPF, SmoothMoverBoundedAccel, SmoothMoverCompose and
SmoothMovingRect, with the global tuning knobs (kLPFSlewRate,
kBoundedMaxSlew, kBoundedMaxSlewAccel) passed explicitly.
-/

noncomputable section

namespace Camtrack

/-- cv::Rect_ with real-valued fields, as used for prec = float rects. -/
structure RectR where
  x : ℝ
  y : ℝ
  width : ℝ
  height : ℝ

/-- State of SmoothMoverLPF: the single member s_. -/
structure LPFState where
  s : ℝ

/-- SmoothMoverLPF::operator<<, line 71-73:
s_ = s_ * (1 - kLPFSlewRate) + target * kLPFSlewRate. -/
def lpfStep (rate : ℝ) (st : LPFState) (target : ℝ) : LPFState :=
  ⟨st.s * (1 - rate) + target * rate⟩

/-- State of SmoothMoverBoundedAccel: members s_ and ds_. -/
structure BAState where
  s : ℝ
  ds : ℝ

/-- The SmoothMoverBoundedAccel constructor (line 84) sets s_ := initial
and does not initialize ds_; the indeterminate initial content of ds_ is
modelled as an explicit extra argument. -/
def mkBoundedAccel (initial dsIndeterminate : ℝ) : BAState :=
  ⟨initial, dsIndeterminate⟩

/-- SmoothMoverBoundedAccel::operator<<, lines 97-116, with
vmax = kBoundedMaxSlew and amax = kBoundedMaxSlewAccel.  Note that the
target > s_ branch sets ds_ = s_ - target (line 112), exactly as the
source does. -/
def baStep (vmax amax : ℝ) (st : BAState) (target : ℝ) : BAState :=
  if target < st.s then
    let ds1 := st.ds - amax
    let ds2 := if ds1 < -vmax then -vmax else ds1
    let ds3 := if st.s + ds2 < target then target - st.s else ds2
    ⟨st.s + ds3, ds3⟩
  else if target > st.s then
    let ds1 := st.ds + amax
    let ds2 := if ds1 > vmax then vmax else ds1
    let ds3 := if st.s + ds2 > target then st.s - target else ds2
    ⟨st.s + ds3, ds3⟩
  else
    st

/-- Tuning knobs: the globals kLPFSlewRate, kBoundedMaxSlew,
kBoundedMaxSlewAccel set up in main. -/
structure Knobs where
  lpfSlewRate : ℝ
  boundedMaxSlew : ℝ
  boundedMaxSlewAccel : ℝ

/-- State of SmoothMoverCompose<SmoothMoverBoundedAccel, SmoothMoverLPF>:
members r_ (the bounded-acceleration stage) and s_ (the low-pass stage). -/
structure ComposeState where
  r : BAState
  s : LPFState

/-- SmoothMoverCompose::operator<<, lines 127-130: r_ << target;
s_ << static_cast<T>(r_).  The cast of the bounded-acceleration stage
returns its member s_. -/
def composeStep (k : Knobs) (st : ComposeState) (target : ℝ) : ComposeState :=
  let rNew := baStep k.boundedMaxSlew k.boundedMaxSlewAccel st.r target
  ⟨rNew, lpfStep k.lpfSlewRate st.s rNew.s⟩

/-- State of SmoothMovingRect, lines 146-176: immutable bounds_ and
aspect_, the two composed chains centerX_ and centerY_, and the plain
low-pass smoother size_. -/
structure SMRState where
  bounds : RectR
  aspect : ℝ
  centerX : ComposeState
  centerY : ComposeState
  size : LPFState

/-- The SmoothMovingRect constructor, lines 149-155: centers seeded at
the middle of bounds, size seeded at bounds.width * bounds.height.  The
nested SmoothMoverCompose constructor seeds both of its stages with the
initial value; the bounded-acceleration stages leave ds_ uninitialized,
modelled by the explicit arguments dsX and dsY. -/
def mkSMR (bounds : RectR) (aspect dsX dsY : ℝ) : SMRState :=
  ⟨bounds, aspect,
   ⟨⟨bounds.x + bounds.width / 2, dsX⟩, ⟨bounds.x + bounds.width / 2⟩⟩,
   ⟨⟨bounds.y + bounds.height / 2, dsY⟩, ⟨bounds.y + bounds.height / 2⟩⟩,
   ⟨bounds.width * bounds.height⟩⟩

/-- SmoothMovingRect::operator<<, lines 243-247: feed the target rect's
center x, center y and area into the three smoothers. -/
def observe (k : Knobs) (st : SMRState) (target : RectR) : SMRState :=
  { st with
    centerX := composeStep k st.centerX (target.x + target.width / 2),
    centerY := composeStep k st.centerY (target.y + target.height / 2),
    size := lpfStep k.lpfSlewRate st.size (target.width * target.height) }

/-- Lines 201-206 of SmoothMovingRect::scale: if (x < 0) shrink width by
2*delta and height by 2*delta/aspect, set x = 0 (y is not changed). -/
def clampLeft (aspect : ℝ) (r : RectR) : RectR :=
  if r.x < 0 then
    let delta := -r.x
    ⟨0, r.y, r.width - 2 * delta, r.height - 2 * delta / aspect⟩
  else r

/-- Lines 207-212 of SmoothMovingRect::scale: if (y < 0) shrink height
by 2*delta and width by 2*delta*aspect, set y = 0 (x is not changed). -/
def clampTop (aspect : ℝ) (r : RectR) : RectR :=
  if r.y < 0 then
    let delta := -r.y
    ⟨r.x, 0, r.width - 2 * delta * aspect, r.height - 2 * delta⟩
  else r

/-- Lines 213-221 of SmoothMovingRect::scale: if right overflows
bounds_.x + bounds_.width, shrink both dimensions and shift x and y
inward. -/
def clampRight (bounds : RectR) (aspect : ℝ) (r : RectR) : RectR :=
  let right := r.x + r.width
  let boundsRight := bounds.x + bounds.width
  if right > boundsRight then
    let delta := right - boundsRight
    ⟨r.x + delta, r.y + delta / aspect,
     r.width - 2 * delta, r.height - 2 * delta / aspect⟩
  else r

/-- Lines 222-230 of SmoothMovingRect::scale: if bottom overflows
bounds_.y + bounds_.height, shrink both dimensions and shift y and x
inward. -/
def clampBottom (bounds : RectR) (aspect : ℝ) (r : RectR) : RectR :=
  let bottom := r.y + r.height
  let boundsBottom := bounds.y + bounds.height
  if bottom > boundsBottom then
    let delta := bottom - boundsBottom
    ⟨r.x + delta * aspect, r.y + delta,
     r.width - 2 * delta * aspect, r.height - 2 * delta⟩
  else r

/-- The four edge clamps of SmoothMovingRect::scale in source order:
left (x < 0), top (y < 0), right, bottom. -/
def clampAll (bounds : RectR) (aspect : ℝ) (r : RectR) : RectR :=
  clampBottom bounds aspect (clampRight bounds aspect (clampTop aspect (clampLeft aspect r)))

/-- SmoothMovingRect::scale, lines 178-241 (currentCrop): derive a rect
of area size_ * factor with the fixed aspect ratio, position it at the
smoothed center with the vertical bias, then apply the four edge clamps
in source order (left, top, right, bottom) and return the result. -/
def scale (st : SMRState) (factor verticalPositioning : ℝ) : RectR :=
  let size := st.size.s * factor
  let aspect := st.aspect
  let height := Real.sqrt (size / aspect)
  let width := aspect * height
  let x := st.centerX.s.s - width / 2
  let y := st.centerY.s.s - height * verticalPositioning
  clampAll st.bounds aspect ⟨x, y, width, height⟩

/-- Center x coordinate of a rect, x + width / 2. -/
def centerXOf (r : RectR) : ℝ := r.x + r.width / 2

/-- Center y coordinate of a rect, y + height / 2. -/
def centerYOf (r : RectR) : ℝ := r.y + r.height / 2

/- Theorems about the bounded-acceleration and low-pass smoothers. -/

/-- C4: for every call to the bounded-acceleration update from a state
with speed within the cap, the updated value does not cross the target
in either direction (the two source assertions hold), and the updated
speed still satisfies the cap. -/
theorem baStep_postcondition (vmax amax target : ℝ) (st : BAState)
    (hds : |st.ds| ≤ vmax) (hamax : 0 ≤ amax) :
    (target < st.s → target ≤ (baStep vmax amax st target).s) ∧
    (st.s < target → (baStep vmax amax st target).s ≤ target) ∧
    |(baStep vmax amax st target).ds| ≤ vmax := by
  obtain ⟨hd1, hd2⟩ := abs_le.mp hds
  simp only [baStep]
  split_ifs with h1 h2 h3 h4 h5 h6 <;>
    refine ⟨fun hc => ?_, fun hc => ?_, abs_le.mpr ⟨?_, ?_⟩⟩ <;>
      (try dsimp only) <;> linarith

/-- Witness for C4 at vmax = 1, amax = 1, state (0, 0), target 5. -/
theorem baStep_postcondition_witness :
    |(BAState.mk 0 0).ds| ≤ (1 : ℝ) ∧ (0 : ℝ) ≤ 1 ∧
    ((5 < (BAState.mk 0 0).s → (5 : ℝ) ≤ (baStep 1 1 ⟨0, 0⟩ 5).s) ∧
     ((BAState.mk 0 0).s < 5 → (baStep 1 1 ⟨0, 0⟩ 5).s ≤ 5) ∧
     |(baStep 1 1 ⟨0, 0⟩ 5).ds| ≤ 1) :=
  ⟨by norm_num, by norm_num,
   baStep_postcondition 1 1 5 ⟨0, 0⟩ (by norm_num) (by norm_num)⟩

/-- C3: in the target > s branch, when the projected step would carry s
past the target, the update does not land on the target: from state
(0, 0) with vmax = 2, amax = 3 and target 1, the code sets
ds = s - target = -1 and moves s to -1, away from the target, while the
mirrored target < s branch from (0, 0) toward target -1 does land on -1
exactly. -/
theorem baStep_overshoot_branch_eval :
    baStep 2 3 ⟨0, 0⟩ 1 = ⟨-1, -1⟩ ∧ (baStep 2 3 ⟨0, 0⟩ 1).s ≠ 1 ∧
    (baStep 2 3 ⟨0, 0⟩ (-1)).s = -1 := by
  refine ⟨?_, ?_, ?_⟩ <;> norm_num [baStep]

/-- C10: two bounded-acceleration smoothers constructed with the same
initial value (so with equal s members) but different indeterminate
contents of the uninitialized ds member produce different values from
the same first update, so the first result is not determined by the
constructor argument and the target alone. -/
theorem baStep_first_update_indeterminate :
    (mkBoundedAccel 0 0).s = (mkBoundedAccel 0 2).s ∧
    (baStep 10 1 (mkBoundedAccel 0 0) 5).s ≠
      (baStep 10 1 (mkBoundedAccel 0 2) 5).s := by
  refine ⟨rfl, ?_⟩
  norm_num [baStep, mkBoundedAccel]

/-- C8: the low-pass update computes s*(1-rate) + target*rate; each step
shrinks the distance to the target by the exact factor (1-rate), the
distance shrinks strictly when s is not already at the target, and the
new value stays between s and the target (monotone approach, never
crossing). -/
theorem lpf_step_props (rate s target : ℝ) (h0 : 0 < rate) (h1 : rate ≤ 1) :
    (lpfStep rate ⟨s⟩ target).s = s * (1 - rate) + target * rate ∧
    |(lpfStep rate ⟨s⟩ target).s - target| = (1 - rate) * |s - target| ∧
    (s ≠ target → |(lpfStep rate ⟨s⟩ target).s - target| < |s - target|) ∧
    (s ≤ target →
      s ≤ (lpfStep rate ⟨s⟩ target).s ∧ (lpfStep rate ⟨s⟩ target).s ≤ target) ∧
    (target ≤ s →
      target ≤ (lpfStep rate ⟨s⟩ target).s ∧ (lpfStep rate ⟨s⟩ target).s ≤ s) := by
  have hkey : (lpfStep rate ⟨s⟩ target).s - target = (1 - rate) * (s - target) := by
    simp only [lpfStep]; ring
  refine ⟨rfl, ?_, ?_, ?_, ?_⟩
  · rw [hkey, abs_mul, abs_of_nonneg (by linarith : (0 : ℝ) ≤ 1 - rate)]
  · intro hne
    have hpos : 0 < |s - target| := abs_pos.mpr (sub_ne_zero.mpr hne)
    rw [hkey, abs_mul, abs_of_nonneg (by linarith : (0 : ℝ) ≤ 1 - rate)]
    nlinarith [mul_pos h0 hpos]
  · intro hle
    have hd : 0 ≤ target - s := by linarith
    constructor <;> nlinarith [mul_nonneg h0.le hd, mul_nonneg (by linarith : (0:ℝ) ≤ 1 - rate) hd]
  · intro hle
    have hd : 0 ≤ s - target := by linarith
    constructor <;> nlinarith [mul_nonneg h0.le hd, mul_nonneg (by linarith : (0:ℝ) ≤ 1 - rate) hd]

/-- Witness for C8 at rate = 1/2, s = 0, target = 1. -/
theorem lpf_step_props_witness :
    (0 : ℝ) < 1/2 ∧ (1/2 : ℝ) ≤ 1 ∧
    ((lpfStep (1/2) ⟨0⟩ 1).s = 0 * (1 - 1/2) + 1 * (1/2) ∧
     |(lpfStep (1/2) ⟨0⟩ 1).s - 1| = (1 - 1/2) * |(0 : ℝ) - 1| ∧
     ((0 : ℝ) ≠ 1 → |(lpfStep (1/2) ⟨0⟩ 1).s - 1| < |(0 : ℝ) - 1|) ∧
     ((0 : ℝ) ≤ 1 →
       0 ≤ (lpfStep (1/2) ⟨0⟩ 1).s ∧ (lpfStep (1/2) ⟨0⟩ 1).s ≤ 1) ∧
     ((1 : ℝ) ≤ 0 →
       1 ≤ (lpfStep (1/2) ⟨0⟩ 1).s ∧ (lpfStep (1/2) ⟨0⟩ 1).s ≤ 0)) :=
  ⟨by norm_num, by norm_num, lpf_step_props (1/2) 0 1 (by norm_num) (by norm_num)⟩

/- Aspect-ratio preservation of the four clamps (claim C2). -/

/-- The left clamp preserves the relation width = aspect * height. -/
theorem clampLeft_keeps_aspect (aspect : ℝ) (hA : aspect ≠ 0) (r : RectR)
    (h : r.width = aspect * r.height) :
    (clampLeft aspect r).width = aspect * (clampLeft aspect r).height := by
  simp only [clampLeft]
  split_ifs with hx
  · dsimp only
    rw [h]
    field_simp
    ring
  · exact h

/-- The top clamp preserves the relation width = aspect * height. -/
theorem clampTop_keeps_aspect (aspect : ℝ) (r : RectR)
    (h : r.width = aspect * r.height) :
    (clampTop aspect r).width = aspect * (clampTop aspect r).height := by
  simp only [clampTop]
  split_ifs with hy
  · dsimp only
    rw [h]
    ring
  · exact h

/-- The right clamp preserves the relation width = aspect * height. -/
theorem clampRight_keeps_aspect (bounds : RectR) (aspect : ℝ) (hA : aspect ≠ 0)
    (r : RectR) (h : r.width = aspect * r.height) :
    (clampRight bounds aspect r).width = aspect * (clampRight bounds aspect r).height := by
  simp only [clampRight]
  split_ifs with hr
  · dsimp only
    rw [h]
    field_simp
    ring
  · exact h

/-- The bottom clamp preserves the relation width = aspect * height. -/
theorem clampBottom_keeps_aspect (bounds : RectR) (aspect : ℝ)
    (r : RectR) (h : r.width = aspect * r.height) :
    (clampBottom bounds aspect r).width = aspect * (clampBottom bounds aspect r).height := by
  simp only [clampBottom]
  split_ifs with hb
  · dsimp only
    rw [h]
    ring
  · exact h

/-- C2: for every smoothed state and every zoom factor and vertical
bias, the rectangle returned by scale satisfies width = aspect * height
exactly, along every combination of the four bounds-clamping branches
(the derived rect starts with width = aspect * height and each clamp
preserves the relation). -/
theorem scale_keeps_aspect (st : SMRState) (factor vp : ℝ) (hA : st.aspect ≠ 0) :
    (scale st factor vp).width = st.aspect * (scale st factor vp).height := by
  simp only [scale, clampAll]
  exact clampBottom_keeps_aspect _ _ _
    (clampRight_keeps_aspect _ _ hA _
      (clampTop_keeps_aspect _ _
        (clampLeft_keeps_aspect _ hA _ rfl)))

/- Containment of the clamped rectangle (claim C1). -/

/-- After the left clamp the x coordinate is non-negative. -/
theorem clampLeft_x_nonneg (aspect : ℝ) (r : RectR) : 0 ≤ (clampLeft aspect r).x := by
  simp only [clampLeft]
  split_ifs with h
  · exact le_refl 0
  · exact le_of_not_lt h

/-- The left clamp does not change y. -/
theorem clampLeft_y_eq (aspect : ℝ) (r : RectR) : (clampLeft aspect r).y = r.y := by
  simp only [clampLeft]
  split_ifs <;> rfl

/-- The top clamp does not change x. -/
theorem clampTop_x_eq (aspect : ℝ) (r : RectR) : (clampTop aspect r).x = r.x := by
  simp only [clampTop]
  split_ifs <;> rfl

/-- After the top clamp the y coordinate is non-negative. -/
theorem clampTop_y_nonneg (aspect : ℝ) (r : RectR) : 0 ≤ (clampTop aspect r).y := by
  simp only [clampTop]
  split_ifs with h
  · exact le_refl 0
  · exact le_of_not_lt h

/-- The right clamp keeps x and y non-negative and forces the right edge
within the right bound. -/
theorem clampRight_post (bounds : RectR) (aspect : ℝ) (hA : 0 < aspect)
    (r : RectR) (hx : 0 ≤ r.x) (hy : 0 ≤ r.y) :
    0 ≤ (clampRight bounds aspect r).x ∧ 0 ≤ (clampRight bounds aspect r).y ∧
    (clampRight bounds aspect r).x + (clampRight bounds aspect r).width ≤
      bounds.x + bounds.width := by
  simp only [clampRight]
  split_ifs with h
  · dsimp only
    have hd : 0 < r.x + r.width - (bounds.x + bounds.width) := by linarith
    have hda : 0 < (r.x + r.width - (bounds.x + bounds.width)) / aspect := div_pos hd hA
    exact ⟨by linarith, by linarith, by linarith⟩
  · exact ⟨hx, hy, le_of_not_lt h⟩

/-- The bottom clamp keeps x and y non-negative, keeps the right edge
within the right bound, and forces the bottom edge within the bottom
bound. -/
theorem clampBottom_post (bounds : RectR) (aspect : ℝ) (hA : 0 < aspect)
    (r : RectR) (hx : 0 ≤ r.x) (hy : 0 ≤ r.y)
    (hr : r.x + r.width ≤ bounds.x + bounds.width) :
    0 ≤ (clampBottom bounds aspect r).x ∧ 0 ≤ (clampBottom bounds aspect r).y ∧
    (clampBottom bounds aspect r).x + (clampBottom bounds aspect r).width ≤
      bounds.x + bounds.width ∧
    (clampBottom bounds aspect r).y + (clampBottom bounds aspect r).height ≤
      bounds.y + bounds.height := by
  simp only [clampBottom]
  split_ifs with h
  · dsimp only
    have hd : 0 < r.y + r.height - (bounds.y + bounds.height) := by linarith
    have hda : 0 < (r.y + r.height - (bounds.y + bounds.height)) * aspect := mul_pos hd hA
    exact ⟨by linarith, by linarith, by linarith, by linarith⟩
  · exact ⟨hx, hy, hr, le_of_not_lt h⟩

/-- The four clamps in source order leave any rectangle with x, y at
least 0 and right and bottom edges within the bounds rectangle's right
and bottom edges, for positive aspect. -/
theorem clampAll_contained (bounds : RectR) (aspect : ℝ) (hA : 0 < aspect)
    (r : RectR) :
    0 ≤ (clampAll bounds aspect r).x ∧ 0 ≤ (clampAll bounds aspect r).y ∧
    (clampAll bounds aspect r).x + (clampAll bounds aspect r).width ≤
      bounds.x + bounds.width ∧
    (clampAll bounds aspect r).y + (clampAll bounds aspect r).height ≤
      bounds.y + bounds.height := by
  have h1 : 0 ≤ (clampLeft aspect r).x := clampLeft_x_nonneg aspect r
  have h2x : 0 ≤ (clampTop aspect (clampLeft aspect r)).x := by
    rw [clampTop_x_eq]; exact h1
  have h2y : 0 ≤ (clampTop aspect (clampLeft aspect r)).y :=
    clampTop_y_nonneg aspect (clampLeft aspect r)
  have h3 := clampRight_post bounds aspect hA (clampTop aspect (clampLeft aspect r)) h2x h2y
  have h4 := clampBottom_post bounds aspect hA
    (clampRight bounds aspect (clampTop aspect (clampLeft aspect r))) h3.1 h3.2.1 h3.2.2
  simp only [clampAll]
  exact h4

/-- C1: for every smoothed state of a controller whose scene bounds have
origin 0 (as the program constructs, from the scene dimensions) and
positive aspect ratio, and for every zoom factor and vertical bias, the
rectangle returned by scale lies within the scene bounds: its x and y
are at least bounds.x and bounds.y and its right and bottom edges do not
pass the bounds' right and bottom edges. -/
theorem scale_contained (st : SMRState) (factor vp : ℝ)
    (hbx : st.bounds.x = 0) (hby : st.bounds.y = 0) (hA : 0 < st.aspect) :
    st.bounds.x ≤ (scale st factor vp).x ∧
    st.bounds.y ≤ (scale st factor vp).y ∧
    (scale st factor vp).x + (scale st factor vp).width ≤
      st.bounds.x + st.bounds.width ∧
    (scale st factor vp).y + (scale st factor vp).height ≤
      st.bounds.y + st.bounds.height := by
  have h := clampAll_contained st.bounds st.aspect hA
    ⟨st.centerX.s.s - st.aspect * Real.sqrt (st.size.s * factor / st.aspect) / 2,
     st.centerY.s.s - Real.sqrt (st.size.s * factor / st.aspect) * vp,
     st.aspect * Real.sqrt (st.size.s * factor / st.aspect),
     Real.sqrt (st.size.s * factor / st.aspect)⟩
  rw [hbx] at h ⊢
  rw [hby] at h ⊢
  exact h

/-- Concrete controller state for the C1 and C2 witnesses: bounds
(0,0,10,10), aspect 1, smoothed center (5,5), smoothed size 4. -/
def st1 : SMRState := ⟨⟨0, 0, 10, 10⟩, 1, ⟨⟨5, 0⟩, ⟨5⟩⟩, ⟨⟨5, 0⟩, ⟨5⟩⟩, ⟨4⟩⟩

/-- Witness for C1 at state st1, zoom 1, vertical bias 1/2. -/
theorem scale_contained_witness :
    st1.bounds.x = 0 ∧ st1.bounds.y = 0 ∧ 0 < st1.aspect ∧
    (st1.bounds.x ≤ (scale st1 1 (1/2)).x ∧
     st1.bounds.y ≤ (scale st1 1 (1/2)).y ∧
     (scale st1 1 (1/2)).x + (scale st1 1 (1/2)).width ≤
       st1.bounds.x + st1.bounds.width ∧
     (scale st1 1 (1/2)).y + (scale st1 1 (1/2)).height ≤
       st1.bounds.y + st1.bounds.height) :=
  ⟨rfl, rfl, by norm_num [st1],
   scale_contained st1 1 (1/2) rfl rfl (by norm_num [st1])⟩

/-- Witness for C2 at state st1, zoom 1, vertical bias 1/2. -/
theorem scale_keeps_aspect_witness :
    st1.aspect ≠ 0 ∧
    (scale st1 1 (1/2)).width = st1.aspect * (scale st1 1 (1/2)).height :=
  ⟨by norm_num [st1], scale_keeps_aspect st1 1 (1/2) (by norm_num [st1])⟩

/- Claim C5: the size pipeline versus the composed center pipelines. -/

/-- Tuning knobs for the C5 counterexample: low-pass coefficient 1/2,
speed cap 1, acceleration cap 1. -/
def knobs0 : Knobs := ⟨1/2, 1, 1⟩

/-- Controller state for the C5 counterexample: constructed from bounds
(0,0,2,2) (so the size smoother is seeded with area 4) with both
indeterminate velocities taken to be 0. -/
def st5 : SMRState := mkSMR ⟨0, 0, 2, 2⟩ (4/3) 0 0

/-- C5 counterexample: observing the rect (0,0,0,0) (target area 0)
moves the size state from 4 to 2, the plain low-pass result; feeding the
same target 0 through the composed bounded-acceleration-then-low-pass
chain seeded the same way (both stages at 4, velocity 0) yields 7/2.
The size pipeline is therefore not the composed chain used for the
centers. -/
theorem observe_size_not_composed :
    (observe knobs0 st5 ⟨0, 0, 0, 0⟩).size.s = 2 ∧
    (composeStep knobs0 ⟨⟨4, 0⟩, ⟨4⟩⟩ 0).s.s = 7/2 ∧
    ((2 : ℝ) ≠ 7/2) := by
  refine ⟨?_, ?_, by norm_num⟩
  · norm_num [observe, lpfStep, st5, mkSMR, knobs0]
  · norm_num [composeStep, baStep, lpfStep, knobs0]

/-- C5 amended: after observe(rect), the size state is the result of a
single low-pass update with target rect.width * rect.height (there is no
bounded-acceleration stage for size), while center-x and center-y each
pass their target through a bounded-acceleration update whose output
feeds a low-pass update. -/
theorem observe_pipelines (k : Knobs) (st : SMRState) (t : RectR) :
    (observe k st t).size.s =
      st.size.s * (1 - k.lpfSlewRate) + (t.width * t.height) * k.lpfSlewRate ∧
    (observe k st t).centerX.s.s =
      st.centerX.s.s * (1 - k.lpfSlewRate) +
        (baStep k.boundedMaxSlew k.boundedMaxSlewAccel st.centerX.r
          (t.x + t.width / 2)).s * k.lpfSlewRate ∧
    (observe k st t).centerY.s.s =
      st.centerY.s.s * (1 - k.lpfSlewRate) +
        (baStep k.boundedMaxSlew k.boundedMaxSlewAccel st.centerY.r
          (t.y + t.height / 2)).s * k.lpfSlewRate :=
  ⟨rfl, rfl, rfl⟩

/- Claim C6: whether each clamp keeps the rectangle's center. -/

/-- Controller state for C6: bounds (0,0,10,10), aspect 1, smoothed
center (1,5), smoothed size 16, so the pre-clamp rect at zoom 1 and
vertical bias 1/2 is (-1,3,4,4), centered at (1,5). -/
def st6 : SMRState := ⟨⟨0, 0, 10, 10⟩, 1, ⟨⟨1, 0⟩, ⟨1⟩⟩, ⟨⟨5, 0⟩, ⟨5⟩⟩, ⟨16⟩⟩

/-- C6: the left-edge correction does not keep the center.  From state
st6 only the left clamp fires and scale returns (0,3,2,2); the left
clamp maps the pre-clamp rect (-1,3,4,4) (center (1,5)) to (0,3,2,2)
(center (1,4)): the x center is kept but the y center moves, because
the branch shrinks the height without shifting y. -/
theorem clampLeft_moves_center :
    scale st6 1 (1/2) = ⟨0, 3, 2, 2⟩ ∧
    centerXOf (clampLeft 1 ⟨-1, 3, 4, 4⟩) = centerXOf ⟨-1, 3, 4, 4⟩ ∧
    centerYOf (clampLeft 1 ⟨-1, 3, 4, 4⟩) ≠ centerYOf ⟨-1, 3, 4, 4⟩ := by
  have hs : Real.sqrt ((16 : ℝ) * 1 / 1) = 4 := by
    rw [show ((16 : ℝ) * 1 / 1) = 4 ^ 2 by norm_num]
    exact Real.sqrt_sq (by norm_num)
  refine ⟨?_, ?_, ?_⟩
  · simp only [scale, clampAll, st6, hs]
    norm_num [clampLeft, clampTop, clampRight, clampBottom]
  · norm_num [clampLeft, centerXOf]
  · norm_num [clampLeft, centerYOf]

/- Claim C7: behavior of scale when the clamped rect degenerates. -/

/-- Controller state for C7: bounds (0,0,10,10), aspect 1, smoothed
center (5,5), smoothed size 10000, so the pre-clamp rect at zoom 1 and
vertical bias 1/2 is (-45,-45,100,100) and the first two clamps shrink
it past zero size. -/
def st7 : SMRState := ⟨⟨0, 0, 10, 10⟩, 1, ⟨⟨5, 0⟩, ⟨5⟩⟩, ⟨⟨5, 0⟩, ⟨5⟩⟩, ⟨10000⟩⟩

/-- C7 counterexample: scale can return a rectangle with negative width,
so the degenerate case is not turned into a distinct no-valid-frame
result. -/
theorem scale_degenerate_width_neg : (scale st7 1 (1/2)).width < 0 := by
  have hs : Real.sqrt ((10000 : ℝ) * 1 / 1) = 100 := by
    rw [show ((10000 : ℝ) * 1 / 1) = 100 ^ 2 by norm_num]
    exact Real.sqrt_sq (by norm_num)
  simp only [scale, clampAll, st7, hs]
  norm_num [clampLeft, clampTop, clampRight, clampBottom]

/-- C7 amended: when bounds-clamping drives the computed width or height
non-positive, scale returns the malformed rectangle itself — here
(0,0,-80,-80) — rather than any distinct signal; callers can only
detect degeneracy by inspecting the returned rectangle. -/
theorem scale_returns_malformed_rect : scale st7 1 (1/2) = ⟨0, 0, -80, -80⟩ := by
  have hs : Real.sqrt ((10000 : ℝ) * 1 / 1) = 100 := by
    rw [show ((10000 : ℝ) * 1 / 1) = 100 ^ 2 by norm_num]
    exact Real.sqrt_sq (by norm_num)
  simp only [scale, clampAll, st7, hs]
  norm_num [clampLeft, clampTop, clampRight, clampBottom]

/- Claim C9: rectBound (lines 255-264), instantiated at cv::Rect
(integer fields) as in the call site.  rectBound folds the OpenCV
operator |= over the vector; that operator (opencv2/core/types.hpp,
OpenCV 4, which the compile-command's -I/usr/include/opencv4 selects)
returns the other operand when one side is empty (width or height at
most 0) and otherwise takes component-wise min of the top-left corner
and max of the bottom-right corner. -/

/-- cv::Rect with integer fields. -/
structure RectZ where
  x : ℤ
  y : ℤ
  width : ℤ
  height : ℤ
deriving DecidableEq

/-- OpenCV 4 operator |= on cv::Rect: if a is empty the union is b, if b
is empty it is a, otherwise the corner-wise min/max rectangle. -/
def rectUnion (a b : RectZ) : RectZ :=
  if a.width ≤ 0 ∨ a.height ≤ 0 then b
  else if b.width ≤ 0 ∨ b.height ≤ 0 then a
  else
    ⟨min a.x b.x, min a.y b.y,
     max (a.x + a.width) (b.x + b.width) - min a.x b.x,
     max (a.y + a.height) (b.y + b.height) - min a.y b.y⟩

/-- rectBound, lines 255-264: asserts the vector is non-empty (modelled
by returning none), then folds operator |= over the remaining rects
starting from the first. -/
def rectBound : List RectZ → Option RectZ
  | [] => none
  | r :: rs => some (rs.foldl rectUnion r)

/-- The rectangle whose left/top are the component-wise minima of the
inputs' left/top and whose right/bottom are the component-wise maxima of
the inputs' right/bottom, written from the words of the specification
for comparison with rectBound. -/
def minMaxBound (r : RectZ) (rs : List RectZ) : RectZ :=
  let left := rs.foldl (fun m q => min m q.x) r.x
  let top := rs.foldl (fun m q => min m q.y) r.y
  let rightEdge := rs.foldl (fun m q => max m (q.x + q.width)) (r.x + r.width)
  let bottomEdge := rs.foldl (fun m q => max m (q.y + q.height)) (r.y + r.height)
  ⟨left, top, rightEdge - left, bottomEdge - top⟩

/-- On rectangles of positive size, the OpenCV union is the corner-wise
min/max rectangle. -/
theorem rectUnion_of_pos (a b : RectZ) (ha1 : 0 < a.width) (ha2 : 0 < a.height)
    (hb1 : 0 < b.width) (hb2 : 0 < b.height) :
    rectUnion a b =
      ⟨min a.x b.x, min a.y b.y,
       max (a.x + a.width) (b.x + b.width) - min a.x b.x,
       max (a.y + a.height) (b.y + b.height) - min a.y b.y⟩ := by
  rw [rectUnion, if_neg (by omega), if_neg (by omega)]

/-- The OpenCV union of two rectangles of positive size has positive
size. -/
theorem rectUnion_pos (a b : RectZ) (ha1 : 0 < a.width) (ha2 : 0 < a.height)
    (hb1 : 0 < b.width) (hb2 : 0 < b.height) :
    0 < (rectUnion a b).width ∧ 0 < (rectUnion a b).height := by
  rw [rectUnion_of_pos a b ha1 ha2 hb1 hb2]
  constructor <;> dsimp only <;> omega

/-- Folding the OpenCV union from a seed of positive size over a list of
rects of positive size computes the corner-wise min/max rectangle. -/
theorem foldl_rectUnion_minmax (rs : List RectZ) (r : RectZ)
    (h : ∀ q ∈ r :: rs, 0 < q.width ∧ 0 < q.height) :
    rs.foldl rectUnion r = minMaxBound r rs := by
  induction rs generalizing r with
  | nil =>
    cases r with
    | mk x y w h =>
      simp only [List.foldl_nil, minMaxBound, List.foldl_nil]
      congr 1 <;> omega
  | cons q tl ih =>
    have hr := h r (by simp)
    have hq := h q (by simp)
    have htl : ∀ p ∈ rectUnion r q :: tl, 0 < p.width ∧ 0 < p.height := by
      intro p hp
      rcases List.mem_cons.mp hp with hp | hp
      · subst hp
        exact rectUnion_pos r q hr.1 hr.2 hq.1 hq.2
      · exact h p (by simp [hp])
    have hu := rectUnion_of_pos r q hr.1 hr.2 hq.1 hq.2
    calc (q :: tl).foldl rectUnion r = tl.foldl rectUnion (rectUnion r q) := by
          simp [List.foldl_cons]
      _ = minMaxBound (rectUnion r q) tl := ih (rectUnion r q) htl
      _ = minMaxBound r (q :: tl) := by
          simp only [minMaxBound, hu, List.foldl_cons]
          have e1 : r.x ⊓ q.x + ((r.x + r.width) ⊔ (q.x + q.width) - r.x ⊓ q.x) =
              (r.x + r.width) ⊔ (q.x + q.width) := by omega
          have e2 : r.y ⊓ q.y + ((r.y + r.height) ⊔ (q.y + q.height) - r.y ⊓ q.y) =
              (r.y + r.height) ⊔ (q.y + q.height) := by omega
          rw [e1, e2]

/-- C9 amended: for every non-empty sequence of rectangles of positive
width and height, rectBound returns the rectangle whose left/top are the
component-wise minima of the inputs' left/top and whose right/bottom are
the component-wise maxima of the inputs' right/bottom.  (Rectangles of
non-positive size are skipped by the underlying OpenCV union, so the
claim does not hold for them; detections always have positive size.) -/
theorem rectBound_minmax (r : RectZ) (rs : List RectZ)
    (h : ∀ q ∈ r :: rs, 0 < q.width ∧ 0 < q.height) :
    rectBound (r :: rs) = some (minMaxBound r rs) := by
  simp only [rectBound]
  exact congrArg some (foldl_rectUnion_minmax rs r h)

/-- Witness for C9 on the specification's own example: the union of
(0,0,10,10) and (5,5,10,10) is (0,0,15,15). -/
theorem rectBound_minmax_witness :
    rectBound [⟨0, 0, 10, 10⟩, (⟨5, 5, 10, 10⟩ : RectZ)] = some ⟨0, 0, 15, 15⟩ :=
  (rectBound_minmax ⟨0, 0, 10, 10⟩ [⟨5, 5, 10, 10⟩] (by decide)).trans (by decide)

/-- C9 counterexample: on a sequence containing a degenerate rectangle
the claimed component-wise min/max formula fails: the union of
(5,5,10,10) and (0,0,0,0) is (5,5,10,10) (the empty rect is skipped),
not the formula's (0,0,15,15). -/
theorem rectBound_skips_empty_rect :
    rectBound [⟨5, 5, 10, 10⟩, (⟨0, 0, 0, 0⟩ : RectZ)] ≠
      some (minMaxBound ⟨5, 5, 10, 10⟩ [⟨0, 0, 0, 0⟩]) ∧
    rectBound [⟨5, 5, 10, 10⟩, (⟨0, 0, 0, 0⟩ : RectZ)] = some ⟨5, 5, 10, 10⟩ := by
  constructor <;> decide

end Camtrack
